import Mathlib

/-!
Verification of the dispatch core of `imagecodecs.py` (version 2022.9.26).

The development shallowly embeds the codec registry, the compatibility
alias layer, the stub factory `_stub`, the lazy resolver `__getattr__`,
and the `imread` multi-candidate trial loop of the source file
`imagecodecs/imagecodecs.py`.  Python strings are Lean `String`; Python
dictionaries are association lists; exceptions become an explicit
`Except` result; the availability of extension modules is an abstract
environment.
-/

/-! ## Python string primitives -/

/-- Cased character in the sense of Python `str.islower` and `str.isupper`;
for the ASCII attribute names of the registry this is exactly the letters. -/
def pyCased (c : Char) : Bool := c.isAlpha

/-- Python `str.islower`: at least one cased character and every cased
character is lower case. -/
def pyIsLower (s : String) : Bool :=
  s.data.any pyCased && s.data.all (fun c => !pyCased c || c.isLower)

/-- Python `str.isupper`: at least one cased character and every cased
character is upper case. -/
def pyIsUpper (s : String) : Bool :=
  s.data.any pyCased && s.data.all (fun c => !pyCased c || c.isUpper)

/-- Python `str.endswith`. -/
def pyEndsWith (s suf : String) : Bool := List.isSuffixOf suf.data s.data

/-- Python `str.upper`. -/
def pyUpperStr (s : String) : String := String.mk (s.data.map Char.toUpper)

/-- Python `str.lower`. -/
def pyLowerStr (s : String) : String := String.mk (s.data.map Char.toLower)

/-- Python `str.capitalize`: first character upper case, the rest lower. -/
def pyCapitalize (s : String) : String :=
  match s.data with
  | [] => ""
  | c :: cs => String.mk (c.toUpper :: cs.map Char.toLower)

/-- Python slice `s[:-n]`: everything but the last `n` characters. -/
def pyDropRight (s : String) (n : Nat) : String :=
  String.mk (s.data.take (s.data.length - n))

/-- A single quote character, as a string. -/
def pyQuote : String := String.singleton '\x27'

/-- Python `repr` of a string (the names the code passes through `repr`
contain no quotes or escapes, so `repr` just wraps them in quotes). -/
def pyRepr (s : String) : String := pyQuote ++ s ++ pyQuote

/-! ## Basic string lemmas -/

theorem string_data_append (a b : String) : (a ++ b).data = a.data ++ b.data := by
  cases a
  cases b
  rfl

theorem string_mk_append (x y : List Char) :
    String.mk x ++ String.mk y = String.mk (x ++ y) := rfl

theorem pyUpperStr_append (a b : String) :
    pyUpperStr (a ++ b) = pyUpperStr a ++ pyUpperStr b := by
  cases a
  cases b
  simp [pyUpperStr, string_mk_append]

theorem pyEndsWith_iff (s suf : String) : pyEndsWith s suf = true ↔ suf.data <:+ s.data := by
  rw [pyEndsWith, List.isSuffixOf, List.isPrefixOf_iff_prefix]
  exact List.reverse_prefix

theorem pyEndsWith_append (a suf : String) : pyEndsWith (a ++ suf) suf = true := by
  rw [pyEndsWith_iff, string_data_append]
  exact List.suffix_append a.data suf.data

theorem getLast_of_pyEndsWith (s suf : String) (c : Char)
    (h : pyEndsWith s suf = true) (hc : suf.data.getLast? = some c) :
    s.data.getLast? = some c := by
  obtain ⟨t, ht⟩ := (pyEndsWith_iff s suf).1 h
  rw [← ht, List.getLast?_append_of_ne_nil t]
  · exact hc
  · intro hnil
    rw [hnil] at hc
    cases hc

theorem suffix_eq_of_length_eq {l a b : List Char} (ha : a <:+ l) (hb : b <:+ l)
    (hlen : a.length = b.length) : a = b := by
  obtain ⟨t, ht⟩ := ha
  obtain ⟨u, hu⟩ := hb
  rw [← hu] at ht
  exact (List.append_inj' ht hlen).2

theorem char_isLower_eq_false_of_isUpper (c : Char) (h : c.isUpper = true) :
    c.isLower = false := by
  revert h
  rw [Char.isUpper, Char.isLower]
  simp only [Bool.and_eq_true, decide_eq_true_eq, Bool.and_eq_false_iff,
    decide_eq_false_iff_not, ge_iff_le, UInt32.le_def, BitVec.le_def]
  have e65 : (UInt32.toBitVec 65).toNat = 65 := rfl
  have e90 : (UInt32.toBitVec 90).toNat = 90 := rfl
  have e97 : (UInt32.toBitVec 97).toNat = 97 := rfl
  have e122 : (UInt32.toBitVec 122).toNat = 122 := rfl
  rw [e65, e90, e97, e122]
  intro h
  by_contra hc
  push_neg at hc
  omega

/-! ## Suffix-branch exclusion lemmas for `_stub` -/

theorem not_version_of_decode (s : String) (h : pyEndsWith s "_decode" = true) :
    pyEndsWith s "_version" = false := by
  by_contra hv
  rw [Bool.not_eq_false] at hv
  have h1 := getLast_of_pyEndsWith s "_decode" 'e' h rfl
  have h2 := getLast_of_pyEndsWith s "_version" 'n' hv rfl
  rw [h1] at h2
  exact absurd h2 (by decide)

theorem not_check_of_decode (s : String) (h : pyEndsWith s "_decode" = true) :
    pyEndsWith s "_check" = false := by
  by_contra hv
  rw [Bool.not_eq_false] at hv
  have h1 := getLast_of_pyEndsWith s "_decode" 'e' h rfl
  have h2 := getLast_of_pyEndsWith s "_check" 'k' hv rfl
  rw [h1] at h2
  exact absurd h2 (by decide)

theorem not_version_of_encode (s : String) (h : pyEndsWith s "_encode" = true) :
    pyEndsWith s "_version" = false := by
  by_contra hv
  rw [Bool.not_eq_false] at hv
  have h1 := getLast_of_pyEndsWith s "_encode" 'e' h rfl
  have h2 := getLast_of_pyEndsWith s "_version" 'n' hv rfl
  rw [h1] at h2
  exact absurd h2 (by decide)

theorem not_check_of_encode (s : String) (h : pyEndsWith s "_encode" = true) :
    pyEndsWith s "_check" = false := by
  by_contra hv
  rw [Bool.not_eq_false] at hv
  have h1 := getLast_of_pyEndsWith s "_encode" 'e' h rfl
  have h2 := getLast_of_pyEndsWith s "_check" 'k' hv rfl
  rw [h1] at h2
  exact absurd h2 (by decide)

theorem not_decode_of_encode (s : String) (h : pyEndsWith s "_encode" = true) :
    pyEndsWith s "_decode" = false := by
  by_contra hv
  rw [Bool.not_eq_false] at hv
  have heq := suffix_eq_of_length_eq ((pyEndsWith_iff s "_decode").1 hv)
    ((pyEndsWith_iff s "_encode").1 h) (by decide)
  exact absurd heq (by decide)

theorem mem_of_pyEndsWith (s suf : String) (c : Char)
    (h : pyEndsWith s suf = true) (hc : c ∈ suf.data) : c ∈ s.data :=
  ((pyEndsWith_iff s suf).1 h).subset hc

theorem pyEndsWith_false_of_upper (s suf : String) (h : pyIsUpper s = true) (c : Char)
    (hc : c ∈ suf.data) (hcase : pyCased c = true) (hup : c.isUpper = false) :
    pyEndsWith s suf = false := by
  by_contra he
  rw [Bool.not_eq_false] at he
  have hmem := mem_of_pyEndsWith s suf c he hc
  rw [pyIsUpper, Bool.and_eq_true] at h
  have hall := List.all_eq_true.mp h.2 c hmem
  rw [hcase, hup] at hall
  exact absurd hall (by decide)

theorem pyIsLower_false_of_upper (s : String) (h : pyIsUpper s = true) :
    pyIsLower s = false := by
  rw [pyIsUpper, Bool.and_eq_true] at h
  obtain ⟨c, hmem, hcased⟩ := List.any_eq_true.mp h.1
  have hup : c.isUpper = true := by
    have hall := List.all_eq_true.mp h.2 c hmem
    rw [hcased] at hall
    simpa using hall
  by_contra hl
  rw [Bool.not_eq_false, pyIsLower, Bool.and_eq_true] at hl
  have hlow := List.all_eq_true.mp hl.2 c hmem
  rw [hcased] at hlow
  have hlow2 : c.isLower = true := by simpa using hlow
  rw [char_isLower_eq_false_of_isUpper c hup] at hlow2
  cases hlow2

/-! ## Errors and values -/

/-- Exceptions of the embedded fragment.  `delayedImport name` is the class
`DelayedImportError(name)` of the source; its message is
`delayedImportMsg name` below. -/
inductive PyError where
  | delayedImport (name : String)
  | attributeError (msg : String)
  | valueError (msg : String)
  deriving DecidableEq

/-- Message built by `DelayedImportError.__init__`. -/
def delayedImportMsg (name : String) : String :=
  "could not import name " ++ pyRepr name ++ " from " ++ pyRepr "imagecodecs"

/-- String form of an exception, as interpolated by f-strings in the source. -/
def errMsg : PyError → String
  | .delayedImport n => delayedImportMsg n
  | .attributeError m => m
  | .valueError m => m

/-- Placeholder values produced by `_stub` in the source.  Each constructor
corresponds to one branch of `_stub`; the `falsy` flag on the class-valued
stubs records whether the metaclass defines `__bool__` returning `False`
(which the source does exactly when the module never bound). -/
inductive StubVal where
  | version (ret : String)
  | check (name : String)
  | decode (name : String)
  | encode (name : String)
  | func (name : String)
  | errorClass (name : String)
  | flagConst (name : String) (falsy : Bool)
  | classConst (name : String) (falsy : Bool)
  deriving DecidableEq

/-- Embedding of `_stub(name, module)` from the source.  The branch order
mirrors the if-chain of the Python function; `module` is `none` when the
backend module failed to import. -/
def _stub (name : String) (module : Option String) : StubVal :=
  if pyEndsWith name "_version" then
    .version (pyDropRight name 8 ++ (if module.isNone then " n/a" else " unknow"))
  else if pyEndsWith name "_check" then .check name
  else if pyEndsWith name "_decode" then .decode name
  else if pyEndsWith name "_encode" then .encode name
  else if pyIsLower name then .func name
  else if pyEndsWith name "Error" then .errorClass name
  else if pyIsUpper name then .flagConst name module.isNone
  else .classConst name module.isNone

/-- Values of the embedded fragment.  `real m a` is the attribute `a`
fetched from the successfully imported extension module `m`; `globalDef n`
is a function or constant defined at top level of `imagecodecs.py` itself;
`callable n` is a caller-supplied callable passed to `imread`. -/
inductive PyValue where
  | pyNone
  | str (s : String)
  | bool (b : Bool)
  | real (module : String) (attr : String)
  | globalDef (name : String)
  | callable (name : String)
  | stub (s : StubVal)
  deriving DecidableEq

/-- Invocation behaviour of the function-valued stubs, from the bodies of
`stub_version`, `stub_check`, `stub_decode`, `stub_encode`, `stub_function`
and `StubError.__init__` in the source: the version stub returns its
constant string (it accepts no arguments), the check stub returns `False`
for any argument, and the remaining function stubs raise
`DelayedImportError(name)` no matter which arguments they receive.
Instantiating the class-valued stubs is not used by this development. -/
def stubCall (s : StubVal) (args : List PyValue) : Option (Except PyError PyValue) :=
  match s with
  | .version ret => if args.isEmpty then some (.ok (.str ret)) else none
  | .check _ => some (.ok (.bool false))
  | .decode n => some (.error (.delayedImport n))
  | .encode n => some (.error (.delayedImport n))
  | .func n => some (.error (.delayedImport n))
  | .errorClass n => some (.error (.delayedImport n))
  | .flagConst _ _ => none
  | .classConst _ _ => none

/-- Truth value of a stub, from `StubType.__bool__` in the source: the
class-valued stubs for a module that never bound are falsy; every other
stub is an ordinary function or class and hence truthy.  Evaluating the
truthiness is total: it never raises. -/
def stubBool (s : StubVal) : Bool :=
  match s with
  | .flagConst _ falsy => !falsy
  | .classConst _ falsy => !falsy
  | _ => true

/-- Attribute access on a class-valued stub, from `StubType.__getattr__`
in the source: any attribute access raises `DelayedImportError(name)`.
Attribute access on the function-valued stubs is ordinary Python function
attribute access and is not modelled. -/
def stubGetattr (s : StubVal) (_a : String) : Option (Except PyError PyValue) :=
  match s with
  | .flagConst n _ => some (.error (.delayedImport n))
  | .classConst n _ => some (.error (.delayedImport n))
  | _ => none

/-! ## Branch lemmas for `_stub` -/

theorem _stub_version_none (name : String) (h : pyEndsWith name "_version" = true) :
    _stub name none = .version (pyDropRight name 8 ++ " n/a") := by
  rw [_stub]
  simp [h]

theorem _stub_version_some (name m : String) (h : pyEndsWith name "_version" = true) :
    _stub name (some m) = .version (pyDropRight name 8 ++ " unknow") := by
  rw [_stub]
  simp [h]

theorem _stub_decode_eq (name : String) (mod : Option String)
    (h : pyEndsWith name "_decode" = true) : _stub name mod = .decode name := by
  rw [_stub]
  simp [h, not_version_of_decode name h, not_check_of_decode name h]

theorem _stub_encode_eq (name : String) (mod : Option String)
    (h : pyEndsWith name "_encode" = true) : _stub name mod = .encode name := by
  rw [_stub]
  simp [h, not_version_of_encode name h, not_check_of_encode name h,
    not_decode_of_encode name h]

theorem _stub_upper_eq (name : String) (mod : Option String)
    (h : pyIsUpper name = true) : _stub name mod = .flagConst name mod.isNone := by
  rw [_stub]
  have hv := pyEndsWith_false_of_upper name "_version" h 'v' (by decide) (by decide) (by decide)
  have hc := pyEndsWith_false_of_upper name "_check" h 'c' (by decide) (by decide) (by decide)
  have hd := pyEndsWith_false_of_upper name "_decode" h 'd' (by decide) (by decide) (by decide)
  have he := pyEndsWith_false_of_upper name "_encode" h 'n' (by decide) (by decide) (by decide)
  have her := pyEndsWith_false_of_upper name "Error" h 'r' (by decide) (by decide) (by decide)
  have hl := pyIsLower_false_of_upper name h
  simp [hv, hc, hd, he, her, hl, h]

/-! ## The declarative registry table -/

/-- One entry of a module attribute list in `_API`: either a plain
attribute name or a tuple group of codec names. -/
inductive ApiEntry where
  | attr (s : String)
  | group (cs : List String)
  deriving DecidableEq

/-- Transcription of the `_API` table of the source: names of public
attributes by module, `none` being the pseudo-module of attributes
implemented in `imagecodecs.py` itself. -/
def _API : List (Option String × List ApiEntry) :=
  [ (none, [.attr "version", .attr "imread", .attr "imwrite", .attr "imagefileext",
      .attr "DelayedImportError", .group ["none", "numpy", "jpeg"]]),
    (some "imcd", [.attr "imcd_version", .attr "numpy_abi_version", .attr "cython_version",
      .group ["bitorder", "byteshuffle", "delta", "float24", "floatpred", "lzw",
        "packbits", "packints", "xor"]]),
    (some "aec", []),
    (some "apng", []),
    (some "avif", []),
    (some "bitshuffle", []),
    (some "blosc", []),
    (some "blosc2", []),
    (some "brotli", []),
    (some "brunsli", []),
    (some "bz2", []),
    (some "cms", [.attr "cms_transform", .attr "cms_profile"]),
    (some "deflate", [.attr "deflate_crc32", .attr "deflate_adler32",
      .group ["deflate", "gzip"]]),
    (some "gif", []),
    (some "heif", []),
    (some "jetraw", [.attr "jetraw_init"]),
    (some "jpeg2k", []),
    (some "jpeg8", []),
    (some "jpeg12", []),
    (some "jpegls", []),
    (some "jpegsof3", []),
    (some "jpegxl", []),
    (some "jpegxr", []),
    (some "lerc", []),
    (some "ljpeg", []),
    (some "lz4", []),
    (some "lz4f", []),
    (some "lzf", []),
    (some "lzma", []),
    (some "mozjpeg", []),
    (some "pglz", []),
    (some "qoi", []),
    (some "png", []),
    (some "rgbe", []),
    (some "rcomp", []),
    (some "snappy", []),
    (some "spng", []),
    (some "tiff", []),
    (some "webp", []),
    (some "zfp", []),
    (some "zlib", [.attr "zlib_crc32", .attr "zlib_adler32"]),
    (some "zlibng", [.attr "zlibng_crc32", .attr "zlibng_adler32"]),
    (some "zopfli", []),
    (some "zstd", []) ]

/-- The six standard attribute names `_add_codec` derives for a codec. -/
def codecAttributes (codec : String) : List String :=
  [codec ++ "_encode", codec ++ "_decode", codec ++ "_check", codec ++ "_version",
   pyCapitalize codec ++ "Error", pyUpperStr codec]

/-- First tuple group of an attribute list, as scanned by
`_register_codecs` (which expands the first tuple it finds and breaks). -/
def firstGroup : List ApiEntry → Option (List String)
  | [] => none
  | .group cs :: _ => some cs
  | .attr _ :: rest => firstGroup rest

/-- Plain attribute names of a list, in order (the tuple is removed by
`_register_codecs` before the derived names are appended; every `_API`
entry contains at most one tuple). -/
def plainAttrs : List ApiEntry → List String
  | [] => []
  | .attr s :: rest => s :: plainAttrs rest
  | .group _ :: rest => plainAttrs rest

/-- Final attribute list of one `_API` entry after `_register_codecs` ran:
plain names first, then the derived names of each codec of the tuple group,
or the derived names of the module itself when there is no tuple. -/
def moduleAttrNames : Option String × List ApiEntry → List String
  | (m, entries) =>
    match firstGroup entries with
    | some cs => plainAttrs entries ++ cs.flatMap codecAttributes
    | none =>
      plainAttrs entries ++
        (match m with
         | some s => codecAttributes s
         | none => [])

/-- The `_ATTRIBUTES` dictionary built by `_register_codecs`, as an
association list of attribute name to owning module. -/
def _ATTRIBUTES : List (String × Option String) :=
  _API.flatMap (fun e => (moduleAttrNames e).map (fun a => (a, e.fst)))

/-- Dictionary lookup in `_ATTRIBUTES`; later insertions win, as for a
Python dict update (the attribute names are in fact pairwise distinct). -/
def attrModule (name : String) : Option (Option String) :=
  _ATTRIBUTES.reverse.lookup name

/-- Transcription of the `_COMPATIBILITY` table: deprecated alias name to
canonical attribute name. -/
def _COMPATIBILITY : List (String × String) :=
  [ ("JPEG", "JPEG8"),
    ("jpeg_check", "jpeg8_check"),
    ("jpeg_version", "jpeg8_version"),
    ("zopfli_check", "zlib_check"),
    ("zopfli_decode", "zlib_decode"),
    ("j2k_encode", "jpeg2k_encode"),
    ("j2k_decode", "jpeg2k_decode"),
    ("jxr_encode", "jpegxr_encode"),
    ("jxr_decode", "jpegxr_decode") ]

/-- The alias normalisation `_COMPATIBILITY.get(name, name)` performed at
the top of `__getattr__`. -/
def normalizeName (name : String) : String :=
  (_COMPATIBILITY.lookup name).getD name

/-- The unsorted content of `__dir__`:
`list(_ATTRIBUTES) + list(_COMPATIBILITY)` (the attribute names of the
registry are pairwise distinct, so listing the dict keys is listing the
first components of the association list). -/
def dirNames : List String :=
  _ATTRIBUTES.map Prod.fst ++ _COMPATIBILITY.map Prod.fst

/-- Embedding of the module `__dir__`: the sorted list of registry
attribute names and compatibility alias names. -/
def __dir__ : List String := dirNames.mergeSort (fun a b => a ≤ b)

theorem mem_dir_iff (a : String) : a ∈ __dir__ ↔ a ∈ dirNames := by
  rw [__dir__]
  exact List.mem_mergeSort

example : attrModule "zstd_decode" = some (some "zstd") := by decide
example : attrModule "version" = some none := by decide
example : attrModule "JPEG" = some none := by decide
example : attrModule "foobar" = none := by decide
example : normalizeName "JPEG" = "JPEG8" := by decide
example : normalizeName "zstd_decode" = "zstd_decode" := by decide

/-! ## The lazy resolver -/

/-- Abstract availability of the extension backends: whether
`importlib.import_module` succeeds for a module, and which attributes a
successfully imported module provides.  The source treats both
`ImportError` and the Cython `AttributeError` workaround as an import
failure. -/
structure Env where
  importOk : String → Bool
  provides : String → String → Bool

/-- Names defined at top level of `imagecodecs.py` itself.  Ordinary
attribute access finds these in the module dictionary before the module
level `__getattr__` is ever consulted. -/
def moduleGlobalNames : List String :=
  ["version", "imread", "imwrite", "imagefileext", "DelayedImportError",
   "NONE", "NoneError", "none_version", "none_check", "none_decode", "none_encode",
   "NUMPY", "NumpyError", "numpy_version", "numpy_check", "numpy_decode", "numpy_encode",
   "JpegError", "jpeg_decode", "jpeg_encode"]

/-- Module dictionary of `imagecodecs.py`: each top level definition is
its own value. -/
def moduleGlobal? (name : String) : Option PyValue :=
  if name ∈ moduleGlobalNames then some (.globalDef name) else none

/-- Embedding of the module level `__getattr__` of the source.  The result
pairs the outcome (the returned attribute value, or the exception raised)
with the list of modules on which an import was attempted, so that the
theorems can speak about binding being attempted or skipped.  The
attribute returned for the normalised name is computed directly; the
source computes the same value inside its per-module `setattr` loop and
then reads it back with `getattr`. -/
def __getattr__ (env : Env) (name_ : String) : Except PyError PyValue × List String :=
  let name := normalizeName name_
  match attrModule name with
  | none =>
    (.error (.attributeError
      ("module " ++ pyRepr "imagecodecs" ++ " has no attribute " ++ pyRepr name)), [])
  | some none => (.ok .pyNone, [])
  | some (some module_) =>
    let v : PyValue :=
      if env.importOk module_ then
        if env.provides module_ name then .real module_ name
        else .stub (_stub name (some module_))
      else .stub (_stub name none)
    (.ok v, [module_])

/-- Full attribute access `getattr(imagecodecs, name)`: the module
dictionary is consulted first, then the module level `__getattr__`. -/
def fullGetattr (env : Env) (name : String) : Except PyError PyValue × List String :=
  match moduleGlobal? name with
  | some v => (.ok v, [])
  | none => __getattr__ env name

/-- Environment in which no extension module imports. -/
def envNone : Env := ⟨fun _ => false, fun _ _ => false⟩

/-! ## Lemmas about alias normalisation -/

theorem lookup_mem {l : List (String × String)} {k v : String}
    (h : l.lookup k = some v) : (k, v) ∈ l := by
  induction l with
  | nil => cases h
  | cons p rest ih =>
    rcases p with ⟨pk, pv⟩
    by_cases hk : k = pk
    · subst hk
      rw [List.lookup] at h
      simp only [beq_self_eq_true] at h
      cases h
      exact List.mem_cons_self _ _
    · rw [List.lookup] at h
      have hb : (k == pk) = false := by simpa using hk
      simp only [hb] at h
      exact List.mem_cons_of_mem _ (ih h)

/-- Every compatibility alias maps to a canonical name, and no canonical
name is itself an alias, so normalisation is idempotent. -/
theorem normalizeName_idem (n : String) :
    normalizeName (normalizeName n) = normalizeName n := by
  cases hl : _COMPATIBILITY.lookup n with
  | none =>
    have hn : normalizeName n = n := by
      rw [normalizeName, hl]
      rfl
    rw [hn]
    exact hn
  | some v =>
    have hn : normalizeName n = v := by
      rw [normalizeName, hl]
      rfl
    rw [hn]
    have hmem := lookup_mem hl
    fin_cases hmem <;> decide

/-- The resolver first normalises the requested name, hence resolving a
name and resolving its normalised form coincide. -/
theorem getattr_normalizeName (env : Env) (n : String) :
    __getattr__ env n = __getattr__ env (normalizeName n) := by
  rw [__getattr__, __getattr__, normalizeName_idem]

/-! ## The format dispatcher: candidate construction -/

/-- Transcription of the extension table built by `_imcodecs` in the
source, flattened to pairs of file extension and codec name. -/
def imcodecsMap : List (String × String) :=
  [ ("apng", "apng"),
    ("avif", "avif"), ("avifs", "avif"),
    ("brn", "brunsli"),
    ("gif", "gif"),
    ("heif", "heif"), ("heic", "heif"), ("heifs", "heif"), ("heics", "heif"),
    ("hif", "heif"),
    ("jpg", "jpeg"), ("jpeg", "jpeg"), ("jpe", "jpeg"), ("jfif", "jpeg"),
    ("jif", "jpeg"), ("ljpeg", "jpeg"),
    ("j2k", "jpeg2k"), ("jp2", "jpeg2k"), ("j2c", "jpeg2k"), ("jpc", "jpeg2k"),
    ("jpx", "jpeg2k"), ("jpf", "jpeg2k"),
    ("jls", "jpegls"),
    ("jxl", "jpegxl"),
    ("jxr", "jpegxr"), ("hdp", "jpegxr"), ("wdp", "jpegxr"),
    ("lerc1", "lerc"), ("lerc2", "lerc"),
    ("npy", "numpy"), ("npz", "numpy"),
    ("png", "png"),
    ("qoi", "qoi"),
    ("hdr", "rgbe"), ("rgbe", "rgbe"), ("pic", "rgbe"),
    ("tif", "tiff"), ("tiff", "tiff"), ("ptif", "tiff"), ("ptiff", "tiff"),
    ("tf8", "tiff"), ("tf2", "tiff"), ("btf", "tiff"),
    ("webp", "webp"),
    ("zfp", "zfp") ]

/-- Lookup in the extension table, `_imcodecs().get(ext)`. -/
def extLookup (e : String) : Option String := imcodecsMap.lookup e

/-- The fixed fallback ordering of imaging codecs tried by `imread` when
no codec is given, in source order. -/
def imreadFallback : List String :=
  ["tiff", "apng", "png", "gif", "webp", "jpeg8", "jpeg12", "jpegsof3",
   "jpeg2k", "jpegls", "jpegxr", "jpegxl", "avif", "heif", "ljpeg",
   "zfp", "lerc", "rgbe", "numpy"]

/-- One entry of the candidate list of `imread`: a codec name or a
caller-supplied callable. -/
inductive Candidate where
  | name (s : String)
  | callable (f : PyValue)
  deriving DecidableEq

/-- Embedding of the candidate-list construction of `imread` (the
`codecs` list).  `codec?` is the caller hint, already turned into a list
when a single name or callable was given; `ext?` is the lower-cased file
extension when the input was path-like.  With no hint the extension-derived
seed (a generic `jpeg` expanding to the four JPEG variants) is extended by
the fallback ordering, skipping codecs already present; with a hint every
string is lower-cased and passed through the extension table, and
callables pass through unchanged. -/
def imreadCandidates (codec? : Option (List Candidate)) (ext? : Option String) :
    List Candidate :=
  match codec? with
  | none =>
    let base : List String :=
      match ext? with
      | some e =>
        match extLookup e with
        | some c => if c = "jpeg" then ["jpeg8", "jpeg12", "jpegsof3", "ljpeg"] else [c]
        | none => []
      | none => []
    let all := imreadFallback.foldl (fun acc c => if c ∈ acc then acc else acc ++ [c]) base
    all.map .name
  | some cs =>
    cs.map fun c =>
      match c with
      | .name s => .name ((extLookup (pyLowerStr s)).getD (pyLowerStr s))
      | .callable f => .callable f

/-! ## The format dispatcher: trial loop -/

/-- A decoded buffer: an abstract identity plus the one property the trial
loop inspects, whether its dtype is the `object` sentinel. -/
structure Img where
  ident : Nat
  dtypeIsObject : Bool
  deriving DecidableEq

/-- Outcome of invoking a decode function on the input data. -/
inductive DecodeOutcome where
  | image (img : Img)
  | raises (e : PyError)
  deriving DecidableEq

/-- Environment of one `imread` run: the backend availability and the
behaviour of the non-stub decode functions on the given input data. -/
structure TrialEnv where
  env : Env
  outcome : PyValue → DecodeOutcome

/-- Python `__name__` of a resolved decode function.  Functions fetched
from an extension module are named after their attribute, as are the
module level functions; the stub functions of `_stub` are named
`stub_decode` and so on. -/
def funcName : PyValue → String
  | .real _ a => a
  | .globalDef n => n
  | .callable n => n
  | .stub (.version _) => "stub_version"
  | .stub (.check _) => "stub_check"
  | .stub (.decode _) => "stub_decode"
  | .stub (.encode _) => "stub_encode"
  | .stub (.func _) => "stub_function"
  | .stub (.errorClass _) => "StubError"
  | .stub (.flagConst _ _) => "STUB"
  | .stub (.classConst _ _) => "Stub"
  | _ => ""

/-- Invoking a resolved decode value on the data.  Function stubs raise
`DelayedImportError` (their fixed behaviour from `_stub`); every other
value behaves as the environment says. -/
def callDecode (t : TrialEnv) (f : PyValue) : DecodeOutcome :=
  match f with
  | .stub (.decode n) => .raises (.delayedImport n)
  | .stub (.encode n) => .raises (.delayedImport n)
  | .stub (.func n) => .raises (.delayedImport n)
  | _ => t.outcome f

/-- Resolution of one candidate inside the trial loop: a callable is used
as is, a name is resolved through `getattr(imagecodecs, codec + "_decode")`. -/
def imreadResolve (t : TrialEnv) (c : Candidate) : Except PyError PyValue :=
  match c with
  | .callable f => .ok f
  | .name s => (fullGetattr t.env (s ++ "_decode")).fst

/-- Display name of a candidate (the codec string, or the name of the
callable). -/
def candName (c : Candidate) : String :=
  match c with
  | .name s => s
  | .callable f => funcName f

/-- Embedding of the trial loop of `imread`: each candidate is resolved
(a resolution failure is recorded as `repr(codec).upper()` plus the
message and the loop continues), then invoked; a returned image with
`object` dtype is discarded and recorded as a `failed` diagnostic; a
`DelayedImportError` is silently skipped; any other exception is recorded
under `func.__name__.upper()`.  When no candidate succeeds the loop ends
in `ValueError` with all diagnostics joined by newlines. -/
def imreadLoop (t : TrialEnv) : List Candidate → List String → Except String (Img × PyValue)
  | [], excs => .error (String.intercalate "\n" excs)
  | c :: rest, excs =>
    match imreadResolve t c with
    | .error e =>
      imreadLoop t rest (excs ++ [pyUpperStr (pyRepr (candName c)) ++ ": " ++ errMsg e])
    | .ok f =>
      match callDecode t f with
      | .image img =>
        if img.dtypeIsObject then
          imreadLoop t rest (excs ++ [pyUpperStr (funcName f) ++ ": failed"])
        else .ok (img, f)
      | .raises (.delayedImport _) => imreadLoop t rest excs
      | .raises e =>
        imreadLoop t rest (excs ++ [pyUpperStr (funcName f) ++ ": " ++ errMsg e])

/-! ## Specification-side description of the trial loop -/

/-- Modelled from the spec: a candidate succeeds exactly when its decode
call returns without raising and the resulting buffer has a determinate
(non-`object`) dtype; this function picks the first succeeding candidate
and its resolved decode function. -/
def specFirstSuccess (t : TrialEnv) : List Candidate → Option (Img × PyValue)
  | [] => none
  | c :: rest =>
    match imreadResolve t c with
    | .error _ => specFirstSuccess t rest
    | .ok f =>
      match callDecode t f with
      | .image img => if img.dtypeIsObject then specFirstSuccess t rest else some (img, f)
      | .raises _ => specFirstSuccess t rest

/-- Modelled from the spec: the diagnostic a failing candidate leaves
behind — none on deferred unavailability (silent skip), the tagged message
otherwise. -/
def specDiag (t : TrialEnv) (c : Candidate) : Option String :=
  match imreadResolve t c with
  | .error e => some (pyUpperStr (pyRepr (candName c)) ++ ": " ++ errMsg e)
  | .ok f =>
    match callDecode t f with
    | .image img =>
      if img.dtypeIsObject then some (pyUpperStr (funcName f) ++ ": failed") else none
    | .raises (.delayedImport _) => none
    | .raises e => some (pyUpperStr (funcName f) ++ ": " ++ errMsg e)

/-- The trial loop returns the first succeeding candidate, and on
exhaustion an aggregate error collecting exactly the diagnostics of the
failing candidates. -/
theorem imreadLoop_run (t : TrialEnv) (cs : List Candidate) (excs : List String) :
    imreadLoop t cs excs =
      match specFirstSuccess t cs with
      | some r => .ok r
      | none => .error (String.intercalate "\n" (excs ++ cs.filterMap (specDiag t))) := by
  induction cs generalizing excs with
  | nil => simp [imreadLoop, specFirstSuccess]
  | cons c rest ih =>
    cases hres : imreadResolve t c with
    | error e =>
      simp only [imreadLoop, specFirstSuccess, List.filterMap_cons, specDiag, hres]
      rw [ih]
      cases hfs : specFirstSuccess t rest with
      | some r => rfl
      | none => simp [List.append_assoc]
    | ok f =>
      cases hcall : callDecode t f with
      | image img =>
        by_cases hobj : img.dtypeIsObject
        · simp only [imreadLoop, specFirstSuccess, List.filterMap_cons, specDiag,
            hres, hcall, hobj, if_true]
          rw [ih]
          cases hfs : specFirstSuccess t rest with
          | some r => rfl
          | none => simp [List.append_assoc]
        · simp [imreadLoop, specFirstSuccess, List.filterMap_cons, specDiag,
            hres, hcall, hobj]
      | raises e =>
        cases e with
        | delayedImport n =>
          simp only [imreadLoop, specFirstSuccess, List.filterMap_cons, specDiag,
            hres, hcall]
          rw [ih]
        | attributeError m =>
          simp only [imreadLoop, specFirstSuccess, List.filterMap_cons, specDiag,
            hres, hcall]
          rw [ih]
          cases hfs : specFirstSuccess t rest with
          | some r => rfl
          | none => simp [List.append_assoc]
        | valueError m =>
          simp only [imreadLoop, specFirstSuccess, List.filterMap_cons, specDiag,
            hres, hcall]
          rw [ih]
          cases hfs : specFirstSuccess t rest with
          | some r => rfl
          | none => simp [List.append_assoc]

/-! ## The `none` codec -/

/-- An in-memory buffer with its shape and element type, the data `imread`
and the codecs pass around. -/
structure NDArray where
  shape : List Nat
  dtype : String
  elems : List Int
  deriving DecidableEq

/-- Embedding of `none_decode(data, *args, **kwargs)` of the source: a
no-op returning its input (the extra arguments are ignored by the body). -/
def none_decode (data : NDArray) : NDArray := data

/-- Embedding of `none_encode(data, *args, **kwargs)` of the source: a
no-op returning its input (the extra arguments are ignored by the body). -/
def none_encode (data : NDArray) : NDArray := data

/-! ## Claims -/

/-- Claim C1: for every attribute name ending in `_decode` or `_encode`
(registered under its own name, i.e. not rerouted by the compatibility
alias layer) whose owning backend module failed to bind or does not
provide the attribute, resolution through the lazy resolver succeeds
without raising, and the returned stub is a function that raises
`DelayedImportError` carrying exactly the original attribute name when,
and only when, it is invoked: the resolution outcome is `ok` (nothing is
raised at resolution time), and every invocation of the stub, with any
arguments, raises the deferred error naming the attribute. -/
theorem claim_C1_decode_encode_stub (env : Env) (name m : String)
    (hnorm : normalizeName name = name)
    (hattr : attrModule name = some (some m))
    (hsuf : pyEndsWith name "_decode" = true ∨ pyEndsWith name "_encode" = true)
    (hmiss : env.importOk m = false ∨
      (env.importOk m = true ∧ env.provides m name = false)) :
    ∃ s : StubVal, __getattr__ env name = (.ok (.stub s), [m]) ∧
      ∀ args : List PyValue, stubCall s args = some (.error (.delayedImport name)) := by
  rcases hsuf with hd | he
  · refine ⟨.decode name, ?_, fun args => rfl⟩
    simp only [__getattr__, hnorm, hattr]
    rcases hmiss with h1 | ⟨h1, h2⟩
    · simp [h1, _stub_decode_eq name none hd]
    · simp [h1, h2, _stub_decode_eq name (some m) hd]
  · refine ⟨.encode name, ?_, fun args => rfl⟩
    simp only [__getattr__, hnorm, hattr]
    rcases hmiss with h1 | ⟨h1, h2⟩
    · simp [h1, _stub_encode_eq name none he]
    · simp [h1, h2, _stub_encode_eq name (some m) he]

/-- Claim C1 witness: concrete instance at the attribute `zstd_decode`
with no backend importable. -/
theorem claim_C1_witness :
    (normalizeName "zstd_decode" = "zstd_decode" ∧
      attrModule "zstd_decode" = some (some "zstd") ∧
      pyEndsWith "zstd_decode" "_decode" = true ∧
      envNone.importOk "zstd" = false) ∧
    (∃ s : StubVal, __getattr__ envNone "zstd_decode" = (.ok (.stub s), ["zstd"]) ∧
      ∀ args : List PyValue,
        stubCall s args = some (.error (.delayedImport "zstd_decode"))) :=
  ⟨⟨by decide, by decide, by decide, rfl⟩,
    claim_C1_decode_encode_stub envNone "zstd_decode" "zstd" (by decide) (by decide)
      (Or.inl (by decide)) (Or.inl rfl)⟩

/-- Claim C2: evaluated at the failing input `zstd_version`.  The stub for
a backend that never bound returns `zstd n/a` as the claim states, but the
stub for a backend that bound without providing the attribute returns
`zstd unknow` — the source misspells the `zstd unknown` the claim (and the
spec) state. -/
theorem claim_C2_version_stub_strings :
    _stub "zstd_version" none = .version "zstd n/a" ∧
    _stub "zstd_version" (some "zstd") = .version "zstd unknow" ∧
    "zstd unknow" ≠ "zstd unknown" :=
  ⟨by decide, by decide, by decide⟩

/-- Claim C7: for every all-uppercase presence flag registered under its
own name whose backend module never bound, resolution yields a stub whose
truthiness is `false` (truthiness is a total function of the stub in this
model, so evaluating it never raises), while accessing any attribute on
the stub raises `DelayedImportError` carrying the flag name. -/
theorem claim_C7_presence_flag (env : Env) (name m : String)
    (hnorm : normalizeName name = name)
    (hattr : attrModule name = some (some m))
    (hupper : pyIsUpper name = true)
    (hfail : env.importOk m = false) :
    ∃ s : StubVal, __getattr__ env name = (.ok (.stub s), [m]) ∧
      stubBool s = false ∧
      ∀ a : String, stubGetattr s a = some (.error (.delayedImport name)) := by
  refine ⟨.flagConst name true, ?_, rfl, fun a => rfl⟩
  simp only [__getattr__, hnorm, hattr]
  simp [hfail, _stub_upper_eq name none hupper]

/-- Claim C7 witness: concrete instance at the flag `ZSTD` with no backend
importable. -/
theorem claim_C7_witness :
    (normalizeName "ZSTD" = "ZSTD" ∧
      attrModule "ZSTD" = some (some "zstd") ∧
      pyIsUpper "ZSTD" = true ∧
      envNone.importOk "zstd" = false) ∧
    (∃ s : StubVal, __getattr__ envNone "ZSTD" = (.ok (.stub s), ["zstd"]) ∧
      stubBool s = false ∧
      ∀ a : String, stubGetattr s a = some (.error (.delayedImport "ZSTD"))) :=
  ⟨⟨by decide, by decide, by decide, rfl⟩,
    claim_C7_presence_flag envNone "ZSTD" "zstd" (by decide) (by decide) (by decide) rfl⟩

/-- Every compatibility alias targets a name present in the registry. -/
theorem compat_target_registered :
    _COMPATIBILITY.all (fun p => (attrModule p.2).isSome) = true := by decide

/-- A name that is unknown after normalisation was not an alias to begin
with. -/
theorem unknown_normalizeName_eq (n : String)
    (h : attrModule (normalizeName n) = none) : normalizeName n = n := by
  cases hl : _COMPATIBILITY.lookup n with
  | none =>
    rw [normalizeName, hl]
    rfl
  | some v =>
    exfalso
    have hn : normalizeName n = v := by
      rw [normalizeName, hl]
      rfl
    rw [hn] at h
    have hall := List.all_eq_true.mp compat_target_registered (n, v) (lookup_mem hl)
    rw [h] at hall
    cases hall

/-- Claim C8: a name unknown to the registry after alias normalisation
makes the lazy resolver raise immediately an `AttributeError` naming the
attribute, with no backend binding attempted, and this error is a
different exception from the deferred-unavailability
`DelayedImportError`. -/
theorem claim_C8_unknown_attribute (env : Env) (name : String)
    (h : attrModule (normalizeName name) = none) :
    __getattr__ env name =
      (.error (.attributeError
        ("module " ++ pyRepr "imagecodecs" ++ " has no attribute " ++ pyRepr name)), []) ∧
    ∀ s k : String, PyError.attributeError s ≠ PyError.delayedImport k := by
  have hn := unknown_normalizeName_eq name h
  rw [hn] at h
  refine ⟨?_, fun s k hcon => by cases hcon⟩
  simp only [__getattr__, hn, h]

/-- Claim C8 witness: concrete instance at the unknown name `foobar`. -/
theorem claim_C8_witness :
    attrModule (normalizeName "foobar") = none ∧
    (__getattr__ envNone "foobar" =
      (.error (.attributeError
        ("module " ++ pyRepr "imagecodecs" ++ " has no attribute " ++ pyRepr "foobar")), []) ∧
     ∀ s k : String, PyError.attributeError s ≠ PyError.delayedImport k) :=
  ⟨by decide, claim_C8_unknown_attribute envNone "foobar" (by decide)⟩

/-- Claim C9 counterexample: the attribute `version` is registered with
owning module `None` and its precomputed value is the top level function
`version` of the module dictionary, yet the lazy resolver returns the
constant `None`, not that value. -/
theorem claim_C9_counterexample :
    attrModule "version" = some none ∧
    moduleGlobal? "version" = some (.globalDef "version") ∧
    __getattr__ envNone "version" = (.ok .pyNone, []) ∧
    PyValue.pyNone ≠ PyValue.globalDef "version" :=
  ⟨by decide, by decide, by rfl, by decide⟩

/-- Claim C9 amended: for every name that alias-normalises to a registered
attribute whose owning module is `None`, the lazy resolver returns the
constant `None` directly, attempting no backend binding (the precomputed
values themselves live in the module dictionary, which ordinary attribute
access consults before the resolver). -/
theorem claim_C9_moduleless_returns_none (env : Env) (name : String)
    (h : attrModule (normalizeName name) = some none) :
    __getattr__ env name = (.ok .pyNone, []) := by
  simp only [__getattr__, h]

/-- Claim C9 witness: concrete instance at the module-less attribute
`imagefileext`. -/
theorem claim_C9_witness :
    attrModule (normalizeName "imagefileext") = some none ∧
    __getattr__ envNone "imagefileext" = (.ok .pyNone, []) :=
  ⟨by decide, claim_C9_moduleless_returns_none envNone "imagefileext" (by decide)⟩

/-- Claim C10: the `none` codec is lossless by construction — both
`none_encode` and `none_decode` are the identity on their input buffer, so
decoding an encoding returns a buffer equal to the original with shape and
element type preserved. -/
theorem claim_C10_none_roundtrip (x : NDArray) :
    none_decode (none_encode x) = x ∧
    (none_decode (none_encode x)).shape = x.shape ∧
    (none_decode (none_encode x)).dtype = x.dtype :=
  ⟨rfl, rfl, rfl⟩

/-- Claim C3 counterexample: with the explicit codec hint `jpeg`, the
candidate list built by `imread` is the single-element list `[jpeg]` — the
extension table maps `jpeg` to itself, so the hint passes through
verbatim — and not the four-element JPEG variant list the claim asserts. -/
theorem claim_C3_counterexample :
    imreadCandidates (some [Candidate.name "jpeg"]) none = [Candidate.name "jpeg"] ∧
    [Candidate.name "jpeg"] ≠
      [Candidate.name "jpeg8", Candidate.name "jpeg12",
       Candidate.name "jpegsof3", Candidate.name "ljpeg"] :=
  ⟨by decide, by decide⟩

/-- Claim C3 amended: an explicit `jpeg` hint is used verbatim after
passing through the extension alias table (which maps `jpeg` to itself),
yielding the single candidate `jpeg`, whatever the file extension; it is
the hintless path that expands a file extension mapping to the generic
`jpeg` codec into the ordered variant list
`[jpeg8, jpeg12, jpegsof3, ljpeg]`, followed by the not-yet-listed
fallback codecs. -/
theorem claim_C3_amended_jpeg_hint :
    (∀ ext? : Option String,
      imreadCandidates (some [Candidate.name "jpeg"]) ext? = [Candidate.name "jpeg"]) ∧
    (∀ e : String, extLookup e = some "jpeg" →
      imreadCandidates none (some e) =
        (["jpeg8", "jpeg12", "jpegsof3", "ljpeg", "tiff", "apng", "png", "gif",
          "webp", "jpeg2k", "jpegls", "jpegxr", "jpegxl", "avif", "heif", "zfp",
          "lerc", "rgbe", "numpy"].map Candidate.name)) := by
  constructor
  · intro ext?
    rfl
  · intro e he
    simp only [imreadCandidates, he]
    rfl

/-- Claim C3 witness: concrete instance of the hintless expansion at the
file extension `jpg`. -/
theorem claim_C3_witness :
    extLookup "jpg" = some "jpeg" ∧
    imreadCandidates none (some "jpg") =
      (["jpeg8", "jpeg12", "jpegsof3", "ljpeg", "tiff", "apng", "png", "gif",
        "webp", "jpeg2k", "jpegls", "jpegxr", "jpegxl", "avif", "heif", "zfp",
        "lerc", "rgbe", "numpy"].map Candidate.name) :=
  ⟨by decide, claim_C3_amended_jpeg_hint.2 "jpg" (by decide)⟩

/-- Every compatibility alias normalises to its canonical target. -/
theorem compat_norm_all :
    _COMPATIBILITY.all (fun p => normalizeName p.1 == p.2) = true := by decide

/-- Claim C6 counterexample: the alias `j2k_encode` is a compatibility
key, and it does appear in the attribute enumeration `__dir__`, which the
source builds as `sorted(list(_ATTRIBUTES) + list(_COMPATIBILITY))`. -/
theorem claim_C6_counterexample :
    ("j2k_encode", "jpeg2k_encode") ∈ _COMPATIBILITY ∧ "j2k_encode" ∈ __dir__ := by
  refine ⟨by decide, ?_⟩
  rw [mem_dir_iff, dirNames]
  apply List.mem_append_right
  decide

/-- Claim C6 amended: every compatibility alias name does appear in the
directory listing (the listing is the sorted union of the registry
attribute names and the alias names), and invoking an alias resolves to
exactly the same value as invoking its canonical target, with the same
binding behaviour. -/
theorem claim_C6_alias_listed_and_equivalent (env : Env) (p : String × String)
    (hp : p ∈ _COMPATIBILITY) :
    p.1 ∈ __dir__ ∧ __getattr__ env p.1 = __getattr__ env p.2 := by
  constructor
  · rw [mem_dir_iff, dirNames]
    exact List.mem_append_right _ (List.mem_map_of_mem Prod.fst hp)
  · have hn : normalizeName p.1 = p.2 :=
      eq_of_beq (List.all_eq_true.mp compat_norm_all p hp)
    rw [getattr_normalizeName env p.1, hn]

/-- Claim C6 witness: concrete instance at the deprecated name `JPEG`. -/
theorem claim_C6_witness :
    ("JPEG", "JPEG8") ∈ _COMPATIBILITY ∧
    ("JPEG" ∈ __dir__ ∧ __getattr__ envNone "JPEG" = __getattr__ envNone "JPEG8") :=
  ⟨by decide, claim_C6_alias_listed_and_equivalent envNone ("JPEG", "JPEG8") (by decide)⟩

/-- Claim C4: the trial loop of `imread` returns a decoded image exactly
at the first candidate whose decode call returns without raising and
whose buffer dtype is not the `object` sentinel (`specFirstSuccess`
transcribes this success criterion from the spec); otherwise it raises the
aggregate error whose diagnostics are described candidate-wise by
`specDiag`: a candidate failing with `DelayedImportError` is skipped
silently and contributes no diagnostic, while an object-dtype result or
any other exception contributes exactly one recorded message, and the
loop continues. -/
theorem claim_C4_trial_loop (t : TrialEnv) (cs : List Candidate) (excs : List String) :
    imreadLoop t cs excs =
      match specFirstSuccess t cs with
      | some r => .ok r
      | none => .error (String.intercalate "\n" (excs ++ cs.filterMap (specDiag t))) :=
  imreadLoop_run t cs excs

/-! ## Candidate names of the hintless sniffing path -/

/-- Superset of the codec names `imread` can try when called without a
codec hint: the values of the extension table, the JPEG variant expansion
and the fallback ordering. -/
def sniffNames : List String :=
  ["jpeg", "jpeg8", "jpeg12", "jpegsof3", "ljpeg", "apng", "avif", "brunsli", "gif",
   "heif", "jpeg2k", "jpegls", "jpegxl", "jpegxr", "lerc", "numpy", "png", "qoi",
   "rgbe", "tiff", "webp", "zfp"]

theorem mem_foldl_dedup (l : List String) :
    ∀ (base : List String) (x : String),
      x ∈ l.foldl (fun acc c => if c ∈ acc then acc else acc ++ [c]) base →
      x ∈ base ∨ x ∈ l := by
  induction l with
  | nil =>
    intro base x h
    exact Or.inl h
  | cons a as ih =>
    intro base x h
    rw [List.foldl_cons] at h
    by_cases ha : a ∈ base
    · rw [if_pos ha] at h
      rcases ih base x h with h1 | h1
      · exact Or.inl h1
      · exact Or.inr (List.mem_cons_of_mem a h1)
    · rw [if_neg ha] at h
      rcases ih (base ++ [a]) x h with h1 | h1
      · rcases List.mem_append.mp h1 with h2 | h2
        · exact Or.inl h2
        · rw [List.mem_singleton.mp h2]
          exact Or.inr (List.mem_cons_self a as)
      · exact Or.inr (List.mem_cons_of_mem a h1)

theorem imcodecs_values_all :
    imcodecsMap.all (fun p => decide (p.2 ∈ sniffNames)) = true := by decide

theorem fallback_all :
    imreadFallback.all (fun s => decide (s ∈ sniffNames)) = true := by decide

/-- Every candidate of the hintless path is a codec name from
`sniffNames`. -/
theorem sniff_candidates (ext? : Option String) (c : Candidate)
    (hc : c ∈ imreadCandidates none ext?) :
    ∃ s, c = .name s ∧ s ∈ sniffNames := by
  simp only [imreadCandidates] at hc
  obtain ⟨s, hs, rfl⟩ := List.mem_map.mp hc
  refine ⟨s, rfl, ?_⟩
  have hbase : ∀ base : List String,
      (∀ x ∈ base, x ∈ sniffNames) →
      s ∈ imreadFallback.foldl (fun acc c => if c ∈ acc then acc else acc ++ [c]) base →
      s ∈ sniffNames := by
    intro base hb hmem
    rcases mem_foldl_dedup imreadFallback base s hmem with h1 | h1
    · exact hb s h1
    · exact of_decide_eq_true (List.all_eq_true.mp fallback_all s h1)
  cases ext? with
  | none => exact hbase [] (fun x hx => absurd hx (List.not_mem_nil x)) hs
  | some e =>
    cases hext : extLookup e with
    | none =>
      simp only [hext] at hs
      exact hbase [] (fun x hx => absurd hx (List.not_mem_nil x)) hs
    | some cod =>
      simp only [hext] at hs
      by_cases hj : cod = "jpeg"
      · subst hj
        rw [if_pos rfl] at hs
        refine hbase _ ?_ hs
        intro x hx
        fin_cases hx <;> decide
      · rw [if_neg hj] at hs
        refine hbase _ ?_ hs
        intro x hx
        rw [List.mem_singleton.mp hx]
        exact of_decide_eq_true
          (List.all_eq_true.mp imcodecs_values_all (e, cod) (lookup_mem hext))

/-! ## Resolution facts for the sniffing candidates -/

theorem moduleGlobal?_eq {n : String} {v : PyValue} (h : moduleGlobal? n = some v) :
    v = .globalDef n := by
  rw [moduleGlobal?] at h
  by_cases hm : n ∈ moduleGlobalNames
  · rw [if_pos hm] at h
    cases h
    rfl
  · rw [if_neg hm] at h
    cases h

/-- Every sniffing candidate resolves via its own registry entry: the
derived decode attribute is no compatibility alias, and it is either a
module level function or owned by a backend module. -/
theorem sniff_normalize_all :
    sniffNames.all (fun s => normalizeName (s ++ "_decode") == s ++ "_decode") = true := by
  decide

theorem sniff_check_all :
    sniffNames.all (fun s =>
      (moduleGlobal? (s ++ "_decode")).isSome ||
        (match attrModule (s ++ "_decode") with
         | some (some _) => true
         | _ => false)) = true := by
  decide

/-- Resolving the decode function of a sniffing candidate yields either a
function named after the attribute (a module level function or a backend
function) or a decode stub, which raises deferred unavailability when
called. -/
theorem sniff_resolution (env : Env) (s : String) (hs : s ∈ sniffNames) (f : PyValue)
    (hok : (fullGetattr env (s ++ "_decode")).fst = .ok f) :
    funcName f = s ++ "_decode" ∨ ∃ n, f = .stub (.decode n) := by
  have hnorm : normalizeName (s ++ "_decode") = s ++ "_decode" :=
    eq_of_beq (List.all_eq_true.mp sniff_normalize_all s hs)
  have hcheck := List.all_eq_true.mp sniff_check_all s hs
  cases hglob : moduleGlobal? (s ++ "_decode") with
  | some v =>
    simp only [fullGetattr, hglob] at hok
    cases hok
    rw [moduleGlobal?_eq hglob]
    left
    rfl
  | none =>
    simp only [fullGetattr, hglob] at hok
    simp only [hglob, Option.isSome_none, Bool.false_or] at hcheck
    cases hattr : attrModule (s ++ "_decode") with
    | none =>
      rw [hattr] at hcheck
      cases hcheck
    | some mo =>
      cases mo with
      | none =>
        rw [hattr] at hcheck
        cases hcheck
      | some m =>
        simp only [__getattr__, hnorm, hattr] at hok
        by_cases hio : env.importOk m
        · by_cases hpr : env.provides m (s ++ "_decode")
          · simp only [hio, hpr, if_true] at hok
            cases hok
            left
            rfl
          · simp only [hio, hpr, if_true, if_false] at hok
            cases hok
            right
            exact ⟨s ++ "_decode",
              congrArg PyValue.stub (_stub_decode_eq (s ++ "_decode") (some m)
                (pyEndsWith_append s "_decode"))⟩
        · simp only [hio, if_false] at hok
          cases hok
          right
          exact ⟨s ++ "_decode",
            congrArg PyValue.stub (_stub_decode_eq (s ++ "_decode") none
              (pyEndsWith_append s "_decode"))⟩

/-! ## String shape of the diagnostics -/

theorem string_eq_of_data (a b : String) (h : a.data = b.data) : a = b := by
  cases a
  cases b
  cases h
  rfl

theorem string_append_assoc (a b c : String) : a ++ b ++ c = a ++ (b ++ c) := by
  apply string_eq_of_data
  simp [string_data_append, List.append_assoc]

theorem string_empty_append (s : String) : "" ++ s = s := by
  apply string_eq_of_data
  rw [string_data_append]
  rfl

theorem pyUpperStr_quote : pyUpperStr pyQuote = pyQuote := rfl

theorem pyUpperStr_repr (s : String) :
    pyUpperStr (pyRepr s) = pyQuote ++ pyUpperStr s ++ pyQuote := by
  rw [pyRepr, pyUpperStr_append, pyUpperStr_append, pyUpperStr_quote]

/-- Claim C5: in the hintless sniffing path, when no candidate succeeds,
`imread` raises a single aggregate error whose message is the
newline-join of the diagnostics of the failing candidates, and each such
diagnostic carries the upper-cased name of its candidate (a resolution
failure is tagged `repr(name).upper()`, a decode failure
`name_decode.upper()`, both containing the candidate name in upper
case). -/
theorem claim_C5_exhaustion (t : TrialEnv) (ext? : Option String)
    (hfail : specFirstSuccess t (imreadCandidates none ext?) = none) :
    imreadLoop t (imreadCandidates none ext?) [] =
      .error (String.intercalate "\n"
        ((imreadCandidates none ext?).filterMap (specDiag t))) ∧
    ∀ c ∈ imreadCandidates none ext?, ∀ d, specDiag t c = some d →
      ∃ pre post : String, d = pre ++ pyUpperStr (candName c) ++ post := by
  constructor
  · rw [imreadLoop_run, hfail]
    simp
  · intro c hc d hd
    obtain ⟨s, rfl, hsn⟩ := sniff_candidates ext? c hc
    rw [specDiag] at hd
    cases hres : imreadResolve t (.name s) with
    | error e =>
      simp only [hres] at hd
      cases hd
      refine ⟨pyQuote, pyQuote ++ ": " ++ errMsg e, ?_⟩
      show pyUpperStr (pyRepr (candName (.name s))) ++ ": " ++ errMsg e =
        pyQuote ++ pyUpperStr (candName (.name s)) ++ (pyQuote ++ ": " ++ errMsg e)
      rw [pyUpperStr_repr]
      simp [string_append_assoc]
    | ok f =>
      rcases sniff_resolution t.env s hsn f hres with hfn | ⟨n, rfl⟩
      · simp only [hres] at hd
        have hdec : pyUpperStr "_decode" = "_DECODE" := rfl
        have hdf : ("_DECODE: failed" : String) = "_DECODE" ++ ": failed" := rfl
        have hdc : ("_DECODE: " : String) = "_DECODE" ++ ": " := rfl
        cases hcall : callDecode t f with
        | image img =>
          simp only [hcall] at hd
          by_cases hobj : img.dtypeIsObject
          · rw [if_pos hobj] at hd
            cases hd
            refine ⟨"", "_DECODE: failed", ?_⟩
            show pyUpperStr (funcName f) ++ ": failed" =
              "" ++ pyUpperStr (candName (.name s)) ++ "_DECODE: failed"
            rw [hfn, pyUpperStr_append, hdec, string_empty_append]
            show pyUpperStr s ++ "_DECODE" ++ ": failed" =
              pyUpperStr (candName (.name s)) ++ "_DECODE: failed"
            rw [hdf, string_append_assoc]
            rfl
          · rw [if_neg hobj] at hd
            cases hd
        | raises e =>
          cases e with
          | delayedImport n2 =>
            simp only [hcall] at hd
            cases hd
          | attributeError m =>
            simp only [hcall] at hd
            cases hd
            refine ⟨"", "_DECODE: " ++ errMsg (.attributeError m), ?_⟩
            show pyUpperStr (funcName f) ++ ": " ++ errMsg (.attributeError m) =
              "" ++ pyUpperStr (candName (.name s)) ++
                ("_DECODE: " ++ errMsg (.attributeError m))
            rw [hfn, pyUpperStr_append, hdec, string_empty_append, hdc]
            simp only [string_append_assoc]
            rfl
          | valueError m =>
            simp only [hcall] at hd
            cases hd
            refine ⟨"", "_DECODE: " ++ errMsg (.valueError m), ?_⟩
            show pyUpperStr (funcName f) ++ ": " ++ errMsg (.valueError m) =
              "" ++ pyUpperStr (candName (.name s)) ++
                ("_DECODE: " ++ errMsg (.valueError m))
            rw [hfn, pyUpperStr_append, hdec, string_empty_append, hdc]
            simp only [string_append_assoc]
            rfl
      · simp only [hres, callDecode] at hd
        cases hd

/-- A concrete run of the sniffing path: no backend imports, and the only
resolvable decode function (the module level `numpy_decode`) raises an
ordinary decode failure on the given data. -/
def sniffTrialEnv : TrialEnv :=
  ⟨envNone, fun _ => .raises (.valueError "not a numpy array")⟩

/-- Claim C5 witness: concrete exhaustion of the hintless candidate list
with no importable backend. -/
theorem claim_C5_witness :
    specFirstSuccess sniffTrialEnv (imreadCandidates none none) = none ∧
    (imreadLoop sniffTrialEnv (imreadCandidates none none) [] =
      .error (String.intercalate "\n"
        ((imreadCandidates none none).filterMap (specDiag sniffTrialEnv))) ∧
     ∀ c ∈ imreadCandidates none none, ∀ d, specDiag sniffTrialEnv c = some d →
       ∃ pre post : String, d = pre ++ pyUpperStr (candName c) ++ post) :=
  ⟨by decide, claim_C5_exhaustion sniffTrialEnv none (by decide)⟩
